import Mathlib

/-!
Shallow embedding of `agentmemory/main.py` (the Memory Collection Facade)
and of the vector-collection backend interface it drives, together with
proofs settling the specification claims about it.

Conventions of the embedding:
* one `Collection` models the backing collection of a single category
  (`get_or_create_collection` is the identity on this state);
* Python dicts become association lists with Python's assignment
  semantics (replace in place if the key is present, else append);
* timestamps are abstract clock ticks (naturals) passed explicitly, one
  parameter per `datetime.datetime.now()` call in the source;
* the backend's distance oracle is a parameter `d : String → String → ℚ`
  giving the distance from a query text to a stored document;
* fallible operations return `Except PyError`;
* operations whose claims mention which backend calls are issued return
  an extra flag or field recording that a backend query/fetch happened.
-/

namespace AgentMemory

/-- Metadata values stored on a memory record: strings, numeric
timestamps (abstract epoch ticks), and booleans as passed by callers
before coercion. -/
inductive MVal where
  | str (s : String)
  | num (t : Nat)
  | boolean (b : Bool)
deriving DecidableEq, Repr

abbrev Meta := List (String × MVal)

/-- Python dict assignment `d[k] = v` on a string-keyed association
list: replace in place when the key is present, otherwise append. -/
def assocSet (d : List (String × α)) (k : String) (v : α) : List (String × α) :=
  if d.any (fun p => p.1 == k) then
    d.map (fun p => if p.1 == k then (k, v) else p)
  else d ++ [(k, v)]

/-- Python dict lookup `d.get(k)` on a string-keyed association list. -/
def assocGet (d : List (String × α)) (k : String) : Option α :=
  (d.find? (fun p => p.1 == k)).map (fun p => p.2)

/-- Python dict assignment on metadata. -/
def dictSet (d : Meta) (k : String) (v : MVal) : Meta := assocSet d k v

/-- Python dict lookup on metadata. -/
def dictGet (d : Meta) (k : String) : Option MVal := assocGet d k

/-- Coercion of one metadata value as done by create_memory (lines 48-51)
and update_memory (lines 341-345): `str(True) = "True"`, `str(False) =
"False"`, everything else unchanged. -/
def coerceVal : MVal → MVal
  | .boolean b => .str (if b then "True" else "False")
  | v => v

/-- The per-field boolean-to-string coercion loop of create_memory and
update_memory. -/
def coerceBools (d : Meta) : Meta :=
  d.map (fun p => (p.1, coerceVal p.2))

/-- One stored memory record (id, document body, metadata). -/
structure Record where
  id : String
  document : String
  metadata : Meta
deriving DecidableEq, Repr

/-- One backend collection: the records of a single category, in storage
(insertion) order. -/
structure Collection where
  records : List Record
deriving DecidableEq, Repr

/-- Backend `collection.count()`. -/
def Collection.count (st : Collection) : Nat := st.records.length

/-! ### Decimal representation and id padding (create_memory lines 41-44) -/

/-- Fueled most-significant-first decimal digit expansion; the fuel only
serves structural termination and is irrelevant once it exceeds the
argument. -/
def decReprAux : Nat → Nat → List Char
  | 0, _ => []
  | fuel + 1, n =>
    if n < 10 then [Nat.digitChar n]
    else decReprAux fuel (n / 10) ++ [Nat.digitChar (n % 10)]

/-- The embedding of Python `str(n)` for a natural number: decimal
digits, most significant first. -/
def decRepr (n : Nat) : List Char := decReprAux (n + 1) n

/-- Python `s.zfill(w)` on a digit string: left-pad with zeros to width
`w` (no-op when `s` is already at least that long). -/
def zfill (w : Nat) (s : List Char) : List Char :=
  List.replicate (w - s.length) '0' ++ s

/-- The id create_memory assigns when `id` is omitted:
`str(collection.count()).zfill(16)`. -/
def autoId (st : Collection) : String := String.mk (zfill 16 (decRepr st.count))

/-- The `k` base-10 digits of `n` (most significant first) as
characters; the normal form against which `zfill` of a decimal
representation is compared in the id-ordering proofs. -/
def padDigits : Nat → Nat → List Char
  | 0, _ => []
  | k + 1, n => Nat.digitChar (n / 10 ^ k) :: padDigits k (n % 10 ^ k)

/-! ### The backend filter language (spec section 6) -/

/-- A per-field condition: either the shorthand `{field: value}` or the
explicit `{field: {"$eq": value}}`. -/
inductive WAtom where
  | lit (v : String)
  | eqOp (v : String)
deriving DecidableEq, Repr

/-- A single-level dict of per-field conditions, as produced for the
members of a `$and` list. -/
abbrev WLeaf := List (String × WAtom)

/-- A value position in a where dict: a per-field condition or the list
value of a `$and` key. -/
inductive WClause where
  | atom (a : WAtom)
  | andOp (ds : List WLeaf)
deriving DecidableEq, Repr

/-- A backend where filter: a Python dict from keys to clause values. -/
abbrev WhereDict := List (String × WClause)

/-- A backend where_document filter: `{"$contains": text}`. -/
inductive WDoc where
  | containsOp (t : String)
deriving DecidableEq, Repr

/-- Python dict assignment on a where dict (same semantics as dictSet). -/
def wdictSet (d : WhereDict) (k : String) (v : WClause) : WhereDict := assocSet d k v

/-- Lookup in a where dict. -/
def wdictGet (d : WhereDict) (k : String) : Option WClause := assocGet d k

/-- The where-filter construction shared by search_memory (lines 156-167)
and get_memories (lines 280-291): a filter_metadata dict with more than
one key is mapped to `{"$and": [{key: {"$eq": value}}, ...]}`, a dict
with at most one key is passed through as shorthand equality, and
`unique=True` then assigns `filter_metadata["unique"] = "True"` on the
result (starting from an empty dict when there was none). -/
def buildWhere (filter_metadata : Option (List (String × String))) (unique : Bool) :
    Option WhereDict :=
  let fm : Option WhereDict :=
    match filter_metadata with
    | none => none
    | some d =>
      if d.length > 1 then
        some [("$and", WClause.andOp (d.map (fun p => [(p.1, WAtom.eqOp p.2)])))]
      else
        some (d.map (fun p => (p.1, WClause.atom (WAtom.lit p.2))))
  if unique then
    some (wdictSet (fm.getD []) "unique" (WClause.atom (WAtom.lit "True")))
  else fm

/-- Modelled from the spec: the backend's filter grammar (section 6)
admits exactly one operand per where expression — one per-field equality
clause (`{field: {"$eq": value}}`, or the single-key shorthand
`{field: value}`), or one `{"$and": [...]}` whose members are
single-field equality clauses. A dict with several top-level keys is
outside the grammar. -/
def wellFormedWhere : WhereDict → Bool
  | [(_, WClause.atom _)] => true
  | [(k, WClause.andOp ds)] => k == "$and" && ds.all (fun d => d.length == 1)
  | _ => false

/-- The equality value claimed by a per-field condition. -/
def atomVal : WAtom → String
  | .lit v => v
  | .eqOp v => v

/-- Whether a record satisfies one `$and` member dict. -/
def matchesLeaf (r : Record) (d : WLeaf) : Bool :=
  d.all (fun p => dictGet r.metadata p.1 == some (MVal.str (atomVal p.2)))

/-- Whether a record satisfies one where-dict entry. -/
def matchesEntry (r : Record) : String × WClause → Bool
  | (k, .atom a) => dictGet r.metadata k == some (MVal.str (atomVal a))
  | (_, .andOp ds) => ds.all (matchesLeaf r)

/-- Modelled from the spec: evaluation of an optional where filter
against a record (per-field equality and conjunction). -/
def matchesWhere (w : Option WhereDict) (r : Record) : Bool :=
  match w with
  | none => true
  | some d => d.all (matchesEntry r)

/-- Whether the pattern `t` starts the character list `s`. -/
def startsList (t s : List Char) : Bool :=
  match t, s with
  | [], _ => true
  | _ :: _, [] => false
  | a :: ts, b :: ss => a == b && startsList ts ss

/-- Substring containment on character lists. -/
def containsList (s t : List Char) : Bool :=
  match s with
  | [] => t.isEmpty
  | _ :: rest => startsList t s || containsList rest t

/-- Substring containment on strings (document body contains `t`). -/
def strContains (s t : String) : Bool := containsList s.data t.data

/-- Modelled from the spec: evaluation of an optional where_document
filter against a record (document substring containment). -/
def matchesDoc (wd : Option WDoc) (r : Record) : Bool :=
  match wd with
  | none => true
  | some (.containsOp t) => strContains r.document t

/-! ### Backend collection operations (spec section 6) -/

/-- Modelled from the spec: backend upsert of a single id — the same id
overwrites the stored record, a fresh id appends (section 3: "id
uniqueness within a category is enforced by the backend's upsert
semantics (same id overwrites)"). -/
def upsert (st : Collection) (id text : String) (md : Meta) : Collection :=
  if st.records.any (fun r => r.id == id) then
    ⟨st.records.map (fun r => if r.id == id then ⟨id, text, md⟩ else r)⟩
  else ⟨st.records ++ [⟨id, text, md⟩]⟩

/-- Modelled from the spec: backend `get(ids?, where?, where_document?,
limit?)` — the stored records passing all the filters, in storage order,
truncated to the limit. -/
def collGet (st : Collection) (ids : Option (List String)) (w : Option WhereDict)
    (wd : Option WDoc) (limit : Option Nat) : List Record :=
  let res := st.records.filter (fun r =>
    (match ids with
     | none => true
     | some l => l.contains r.id) && matchesWhere w r && matchesDoc wd r)
  match limit with
  | none => res
  | some n => res.take n

/-- Stable insertion into a list sorted by `le`. -/
def insertSorted (le : α → α → Bool) (x : α) : List α → List α
  | [] => [x]
  | y :: ys => if le x y then x :: y :: ys else y :: insertSorted le x ys

/-- Stable sort by the boolean relation `le` (insertion sort); models the
backend returning query results ordered nearest first. -/
def sortByRel (le : α → α → Bool) : List α → List α
  | [] => []
  | x :: xs => insertSorted le x (sortByRel le xs)

/-- Modelled from the spec: backend nearest-neighbor `query` — the
records passing the filters, ordered by distance to the query (the
oracle `d` gives the backend's distance from the query text to a stored
document), truncated to n results, each paired with its distance. -/
def collQuery (d : String → ℚ) (st : Collection) (w : Option WhereDict)
    (wd : Option WDoc) (n : Nat) : List (Record × ℚ) :=
  let cand := st.records.filter (fun r => matchesWhere w r && matchesDoc wd r)
  let sorted := sortByRel (fun a b => decide (d a.document ≤ d b.document)) cand
  (sorted.take n).map (fun r => (r, d r.document))

/-- Modelled from the spec: backend `update(ids, documents?, metadatas?)`
— replaces the stored document and/or metadata of the given id when the
corresponding argument is provided; ids never change. -/
def collUpdate (st : Collection) (id : String) (text : Option String)
    (md : Option Meta) : Collection :=
  ⟨st.records.map (fun r =>
    if r.id == id then ⟨r.id, text.getD r.document, md.getD r.metadata⟩ else r)⟩

/-- Modelled from the spec: backend `delete(ids)` for a single id. -/
def collDelete (st : Collection) (id : String) : Collection :=
  ⟨st.records.filter (fun r => r.id != id)⟩

/-- Python-level errors surfaced by the facade. -/
inductive PyError where
  | invalidArg (msg : String)
  | typeError (msg : String)
  | attributeError (msg : String)
deriving DecidableEq, Repr

/-! ### The facade operations (`agentmemory/main.py`) -/

/-- `create_memory(category, text, metadata, embedding=None, id=None)`
(lines 14-61): stamps `created_at` and `updated_at` from two separate
clock reads `t1`, `t2`, generates `str(count).zfill(16)` when `id` is
omitted, coerces boolean metadata values to strings, and upserts.
Returns the new state and the id used (the source returns None; the id
is exposed here so claims can name the created record). -/
def create_memory (st : Collection) (text : String) (metadata : Meta)
    (id? : Option String) (t1 t2 : Nat) : Collection × String :=
  let md := dictSet metadata "created_at" (MVal.num t1)
  let md := dictSet md "updated_at" (MVal.num t2)
  let id := match id? with
    | some i => i
    | none => autoId st
  let md := coerceBools md
  (upsert st id text md, id)

/-- One search result row `{id, document, metadata, distance}` as
produced by `chroma_collection_to_list` on a query response. -/
structure SearchResult where
  id : String
  document : String
  metadata : Meta
  distance : ℚ
deriving DecidableEq, Repr

/-- `search_memory(category, search_text, n_results, filter_metadata,
contains_text, ..., max_distance, min_distance, unique)` (lines
100-192): returns `[]` immediately when the collection is empty (the
query is then never issued), otherwise clamps `n_results` to the
collection size, builds the where filter, issues the nearest-neighbor
query, and post-filters by `min_distance` (only when it is provided and
positive) and `max_distance` (only when it is provided and below 1).
The boolean records whether the backend query was issued. -/
def search_memory (d : String → String → ℚ) (st : Collection) (search_text : String)
    (n_results : Nat) (filter_metadata : Option (List (String × String)))
    (contains_text : Option String) (min_distance max_distance : Option ℚ)
    (unique : Bool) : List SearchResult × Bool :=
  let wdoc := contains_text.map WDoc.containsOp
  if st.count == 0 then ([], false)
  else
    let n := min n_results st.count
    let w := buildWhere filter_metadata unique
    let results := (collQuery (d search_text) st w wdoc n).map
      (fun p => SearchResult.mk p.1.id p.1.document p.1.metadata p.2)
    let results := match min_distance with
      | some v => if 0 < v then results.filter (fun r => decide (v ≤ r.distance)) else results
      | none => results
    let results := match max_distance with
      | some v => if v < 1 then results.filter (fun r => decide (r.distance ≤ v)) else results
      | none => results
    (results, true)

/-- `create_unique_memory(category, content, metadata, similarity)`
(lines 64-97): one search for the nearest `unique="True"` record within
`max_distance = 1 - similarity`; on no hit, insert flagged
`unique="True"`; on a hit, insert anyway flagged `unique="False"` with
`related_to` / `related_document` pointing at the hit. Returns the new
state and the id of the inserted record. -/
def create_unique_memory (d : String → String → ℚ) (st : Collection) (content : String)
    (metadata : Meta) (similarity : ℚ) (t1 t2 : Nat) : Collection × String :=
  let max_distance := 1 - similarity
  match (search_memory d st content 1 (some [("unique", "True")]) none
      (some 0) (some max_distance) false).1 with
  | [] =>
    let md := dictSet metadata "unique" (MVal.str "True")
    create_memory st content md none t1 t2
  | m :: _ =>
    let md := dictSet metadata "unique" (MVal.str "False")
    let md := dictSet md "related_to" (MVal.str m.id)
    let md := dictSet md "related_document" (MVal.str m.document)
    create_memory st content md none t1 t2

/-- `get_memory(category, id)` (lines 195-234): point lookup by id,
`None` when absent. -/
def get_memory (st : Collection) (id : String) : Option Record :=
  match collGet st (some [id]) none none (some 1) with
  | [] => none
  | m :: _ => some m

/-- `get_memories(category, sort_order, contains_text, filter_metadata,
n_results, ..., unique)` (lines 237-309): clamps `n_results`, builds the
same filters as search, issues a plain backend fetch (there is no
empty-collection early return in the source), sorts client-side by id
(descending by default), truncates. The boolean records that the
backend fetch was issued. Ties between equal ids are broken stably,
matching Python's stable sort on distinct-id data. -/
def get_memories (st : Collection) (sort_desc : Bool) (contains_text : Option String)
    (filter_metadata : Option (List (String × String))) (n_results : Nat)
    (unique : Bool) : List Record × Bool :=
  let n := min n_results st.count
  let wdoc := contains_text.map WDoc.containsOp
  let w := buildWhere filter_metadata unique
  let res := collGet st none w wdoc none
  let res := sortByRel
    (fun a b => if sort_desc then decide (b.id ≤ a.id) else decide (a.id ≤ b.id)) res
  (res.take n, true)

/-- `update_memory(category, id, text=None, metadata=None)` (lines
312-358): raises the invalid-argument exception when both are omitted;
coerces boolean metadata values when metadata is provided; then — on
line 347, outside the `if metadata is not None` guard — executes
`metadata["updated_at"] = ...`, which is a TypeError when metadata is
None (subscript assignment on None); finally issues the backend update
with the optional document and metadata. -/
def update_memory (st : Collection) (id : String) (text : Option String)
    (metadata : Option Meta) (t : Nat) : Except PyError Collection :=
  if metadata.isNone && text.isNone then
    .error (.invalidArg "No text or metadata provided")
  else
    let metadata := metadata.map coerceBools
    match metadata with
    | none => .error (.typeError "NoneType does not support item assignment")
    | some md =>
      let md := dictSet md "updated_at" (MVal.num t)
      .ok (collUpdate st id text (some md))

/-- `memory_exists(category, id, includes_metadata=None)` (lines
431-462): backend get by id with the optional metadata constraint,
limit 1; true when anything came back. -/
def memory_exists (st : Collection) (id : String)
    (includes_metadata : Option WhereDict) : Bool :=
  (collGet st (some [id]) includes_metadata none (some 1)).length > 0

/-- `delete_memory(category, id)` (lines 361-390): when the id does not
exist, only a warning is logged and nothing changes; otherwise the
record is deleted. The boolean records whether the warning was
emitted. -/
def delete_memory (st : Collection) (id : String) : Collection × Bool :=
  if memory_exists st id none = false then (st, true)
  else (collDelete st id, false)

/-- Result of delete_similar_memories: the returned boolean, the final
state, and the `memories_to_delete` id list the source accumulates. -/
structure DeleteSimilarResult where
  found : Bool
  state : Collection
  deleted : List String
deriving DecidableEq, Repr

/-- `delete_similar_memories(category, content, similarity_threshold)`
(lines 393-428): searches with the default `n_results=5`, walks the
results in order collecting ids while `1 - distance >
similarity_threshold` and breaking at the first failure (the
loop-with-break is `takeWhile`; the `len(memories) > 0` guard is
subsumed since takeWhile of `[]` is `[]`), deletes the collected ids,
and returns whether any were collected. -/
def delete_similar_memories (d : String → String → ℚ) (st : Collection)
    (content : String) (similarity_threshold : ℚ) : DeleteSimilarResult :=
  let memories := (search_memory d st content 5 none none none none false).1
  let memories_to_delete :=
    (memories.takeWhile (fun m => decide (similarity_threshold < 1 - m.distance))).map
      (fun m => m.id)
  let st2 := memories_to_delete.foldl (fun s i => (delete_memory s i).1) st
  ⟨decide (memories_to_delete.length > 0), st2, memories_to_delete⟩

/-- The receiver of the final `.count()` call in count_memories: either
the collection, or — when `unique` is requested — the plain result
dictionary returned by `collection.get`, which (per the backend
interface of spec section 6, where `count` is a collection method) has
no `count` method. -/
inductive CountTarget where
  | coll (c : Collection)
  | getResult (rs : List Record)

/-- `count_memories(category, unique=False)` (lines 465-490): when
`unique` is requested the local variable is rebound to the result of
`collection.get(where={"unique": "True"})` — a result dictionary — and
`.count()` is then invoked on it, which is an AttributeError; otherwise
the collection count is returned. -/
def count_memories (st : Collection) (unique : Bool) : Except PyError Nat :=
  let memories : CountTarget :=
    if unique then
      .getResult (collGet st none
        (some [("unique", WClause.atom (WAtom.lit "True"))]) none none)
    else .coll st
  match memories with
  | .coll c => .ok c.count
  | .getResult _ => .error (.attributeError "count")

/-! ### Association-list lemmas -/

theorem find?_setMap_self (d : List (String × α)) (k : String) (v : α)
    (h : d.any (fun p => p.1 == k)) :
    (d.map (fun p => if p.1 == k then (k, v) else p)).find?
      (fun p => p.1 == k) = some (k, v) := by
  induction d with
  | nil => simp at h
  | cons p ps ih =>
    rw [List.map_cons]
    by_cases hp : p.1 = k
    · have h1 : (if (p.1 == k) = true then (k, v) else p) = (k, v) := by
        simp [hp]
      rw [h1]
      exact List.find?_cons_of_pos _ (by simp)
    · have h1 : (if (p.1 == k) = true then (k, v) else p) = p := by
        simp [hp]
      rw [h1, List.find?_cons_of_neg _ (by simpa using hp)]
      exact ih (by simpa [List.any_cons, hp] using h)

theorem find?_setMap_ne (d : List (String × α)) (k k2 : String) (v : α)
    (h : k ≠ k2) :
    (d.map (fun p => if p.1 == k2 then (k2, v) else p)).find?
      (fun p => p.1 == k) = d.find? (fun p => p.1 == k) := by
  induction d with
  | nil => rfl
  | cons p ps ih =>
    rw [List.map_cons]
    by_cases hp : p.1 = k2
    · have hpk : ¬ p.1 = k := by
        rw [hp]; exact fun hc => h hc.symm
      have h1 : (if (p.1 == k2) = true then (k2, v) else p) = (k2, v) := by
        simp [hp]
      rw [h1, List.find?_cons_of_neg _ (by simpa using Ne.symm h),
        List.find?_cons_of_neg _ (by simpa using hpk)]
      exact ih
    · have h1 : (if (p.1 == k2) = true then (k2, v) else p) = p := by
        simp [hp]
      rw [h1]
      by_cases hpk : p.1 = k
      · rw [List.find?_cons_of_pos _ (by simpa using hpk),
          List.find?_cons_of_pos _ (by simpa using hpk)]
      · rw [List.find?_cons_of_neg _ (by simpa using hpk),
          List.find?_cons_of_neg _ (by simpa using hpk)]
        exact ih

theorem assocGet_set_self (d : List (String × α)) (k : String) (v : α) :
    assocGet (assocSet d k v) k = some v := by
  unfold assocSet
  by_cases h : d.any (fun p => p.1 == k)
  · rw [if_pos h]
    unfold assocGet
    rw [find?_setMap_self d k v h]
    rfl
  · rw [if_neg h]
    unfold assocGet
    have hfind : d.find? (fun p => p.1 == k) = none := by
      rw [List.find?_eq_none]
      intro x hx hc
      exact h (List.any_of_mem hx hc)
    rw [List.find?_append, hfind]
    simp [List.find?]

theorem assocGet_set_ne (d : List (String × α)) (k k2 : String) (v : α)
    (h : k ≠ k2) : assocGet (assocSet d k2 v) k = assocGet d k := by
  unfold assocSet
  by_cases hany : d.any (fun p => p.1 == k2)
  · rw [if_pos hany]
    unfold assocGet
    rw [find?_setMap_ne d k k2 v h]
  · rw [if_neg hany]
    unfold assocGet
    rw [List.find?_append]
    have h2 : List.find? (fun p => p.1 == k) [(k2, v)] = none := by
      have hb : ((k2 : String) == k) = false := by
        simpa using Ne.symm h
      simp [List.find?, hb]
    simp [h2]

theorem assocGet_coerce (d : Meta) (k : String) :
    assocGet (coerceBools d) k = (assocGet d k).map coerceVal := by
  induction d with
  | nil => rfl
  | cons p ps ih =>
    unfold coerceBools at ih ⊢
    rw [List.map_cons]
    unfold assocGet at ih ⊢
    by_cases hp : p.1 = k
    · rw [List.find?_cons_of_pos _ (by simpa using hp),
        List.find?_cons_of_pos _ (by simpa using hp)]
      rfl
    · rw [List.find?_cons_of_neg _ (by simpa using hp),
        List.find?_cons_of_neg _ (by simpa using hp)]
      exact ih

theorem dictGet_dictSet_self (d : Meta) (k : String) (v : MVal) :
    dictGet (dictSet d k v) k = some v := assocGet_set_self d k v

theorem dictGet_dictSet_ne (d : Meta) (k k2 : String) (v : MVal)
    (h : k ≠ k2) : dictGet (dictSet d k2 v) k = dictGet d k :=
  assocGet_set_ne d k k2 v h

theorem dictGet_coerceBools (d : Meta) (k : String) :
    dictGet (coerceBools d) k = (dictGet d k).map coerceVal :=
  assocGet_coerce d k

/-! ### Point lookup and deletion -/

theorem memory_exists_none_iff (st : Collection) (id : String) :
    memory_exists st id none = true ↔ ∃ r ∈ st.records, r.id = id := by
  unfold memory_exists collGet
  rw [decide_eq_true_iff]
  simp only [matchesWhere, matchesDoc, Bool.and_true, List.length_take]
  rw [gt_iff_lt, lt_inf_iff]
  constructor
  · rintro ⟨-, hlen⟩
    rw [List.length_pos] at hlen
    obtain ⟨r, hr⟩ := List.exists_mem_of_ne_nil _ hlen
    rw [List.mem_filter] at hr
    refine ⟨r, hr.1, ?_⟩
    simpa using hr.2
  · rintro ⟨r, hr, hid⟩
    refine ⟨by omega, ?_⟩
    rw [List.length_pos]
    intro hnil
    have : r ∈ st.records.filter (fun r => [id].contains r.id) := by
      rw [List.mem_filter]
      exact ⟨hr, by simp [hid]⟩
    rw [hnil] at this
    exact absurd this (List.not_mem_nil r)

theorem memory_exists_false_iff (st : Collection) (id : String) :
    memory_exists st id none = false ↔ ¬ ∃ r ∈ st.records, r.id = id := by
  rw [← memory_exists_none_iff]
  cases memory_exists st id none <;> simp

/-- Whatever branch delete_memory takes, the resulting records are the
original ones minus those carrying the id (the warning branch changes
nothing, and then no record carries the id). -/
theorem delete_memory_records (st : Collection) (id : String) :
    (delete_memory st id).1.records = st.records.filter (fun r => r.id != id) := by
  unfold delete_memory
  by_cases h : memory_exists st id none = true
  · rw [if_neg (by simp [h])]
    rfl
  · rw [if_pos (by simpa using h)]
    have hno : ¬ ∃ r ∈ st.records, r.id = id := by
      rw [← memory_exists_false_iff]
      simpa using h
    have : st.records.filter (fun r => r.id != id) = st.records := by
      rw [List.filter_eq_self]
      intro r hr
      simp only [bne_iff_ne, ne_eq, decide_eq_true_iff]
      exact fun hc => hno ⟨r, hr, hc⟩
    rw [this]

/-- C9: delete_memory on an id that does not exist returns without
raising, leaves the state (hence the record count) unchanged, and only
emits the warning; on an id that exists, no warning is emitted and the
record is removed. -/
theorem C9_delete_memory (st : Collection) (id : String) :
    ((¬ ∃ r ∈ st.records, r.id = id) → delete_memory st id = (st, true)) ∧
    ((∃ r ∈ st.records, r.id = id) →
      (delete_memory st id).1.records = st.records.filter (fun r => r.id != id) ∧
      (delete_memory st id).2 = false ∧
      ¬ ∃ r ∈ (delete_memory st id).1.records, r.id = id) := by
  constructor
  · intro hno
    unfold delete_memory
    rw [if_pos (memory_exists_false_iff st id |>.mpr hno)]
  · intro hyes
    have hex : memory_exists st id none = true :=
      (memory_exists_none_iff st id).mpr hyes
    refine ⟨delete_memory_records st id, ?_, ?_⟩
    · unfold delete_memory
      rw [if_neg (by simp [hex])]
    · rw [delete_memory_records st id]
      rintro ⟨r, hr, hid⟩
      rw [List.mem_filter] at hr
      have := hr.2
      simp only [bne_iff_ne, ne_eq, decide_eq_true_iff] at this
      exact this hid

/-- Witness for C9 at a concrete state: deleting a missing id is a no-op
that only warns. -/
theorem C9_delete_memory_witness :
    delete_memory ⟨[⟨"0000000000000000", "doc", []⟩]⟩ "missing" =
      (⟨[⟨"0000000000000000", "doc", []⟩]⟩, true) :=
  (C9_delete_memory ⟨[⟨"0000000000000000", "doc", []⟩]⟩ "missing").1 (by decide)

/-- C1: update_memory with both text and metadata omitted fails with the
invalid-argument error (and produces no new state); with metadata
provided the call succeeds, stamps updated_at on the stored metadata and
never changes any id. But — against the claim — the call with only text
provided does not succeed: line 347 of the source assigns
`metadata["updated_at"]` outside the `if metadata is not None` guard, a
TypeError when metadata is omitted. -/
theorem C1_update_memory (st : Collection) (id : String) (text : Option String)
    (md : Meta) (t : Nat) (txt : String) :
    update_memory st id none none t =
      .error (.invalidArg "No text or metadata provided") ∧
    update_memory st id (some txt) none t =
      .error (.typeError "NoneType does not support item assignment") ∧
    update_memory st id text (some md) t =
      .ok (collUpdate st id text
        (some (dictSet (coerceBools md) "updated_at" (MVal.num t)))) ∧
    (collUpdate st id text
        (some (dictSet (coerceBools md) "updated_at" (MVal.num t)))).records.map
        (fun r => r.id) = st.records.map (fun r => r.id) ∧
    dictGet (dictSet (coerceBools md) "updated_at" (MVal.num t)) "updated_at" =
      some (MVal.num t) := by
  refine ⟨rfl, rfl, rfl, ?_, dictGet_dictSet_self _ _ _⟩
  unfold collUpdate
  rw [List.map_map]
  apply List.map_congr_left
  intro r hr
  by_cases h : r.id = id
  · simp [Function.comp, h]
  · simp [Function.comp, h]

/-- C4: count_memories with unique=False returns the collection count;
with unique=True the source invokes `.count()` on the result dictionary
of `collection.get`, which has no such method — an AttributeError
instead of the claimed unique-record count. -/
theorem C4_count_memories (st : Collection) :
    count_memories st false = .ok st.count ∧
    count_memories st true = .error (.attributeError "count") := ⟨rfl, rfl⟩

/-! ### Empty-collection behavior (claim C8) -/

/-- C8 counterexample: on an empty collection get_memories does return
an empty sequence, but — against the claim — it does issue the backend
fetch (the source has no empty-collection early return before
`memories.get`). -/
theorem C8_counterexample :
    (get_memories ⟨[]⟩ true none none 20 false).2 = true ∧
    (get_memories ⟨[]⟩ true none none 20 false).1 = [] := ⟨rfl, rfl⟩

/-- C8 amended: on an empty collection search_memory returns [] without
issuing the backend query, while get_memories returns [] only after
issuing the backend fetch. -/
theorem C8_empty_collection (st : Collection) (d : String → String → ℚ)
    (q : String) (n m : Nat) (fm : Option (List (String × String)))
    (ct ct2 : Option String) (mind maxd : Option ℚ) (u u2 sd : Bool)
    (h : st.records = []) :
    search_memory d st q n fm ct mind maxd u = ([], false) ∧
    get_memories st sd ct2 fm m u2 = ([], true) := by
  obtain ⟨recs⟩ := st
  simp only at h
  cases h
  refine ⟨rfl, ?_⟩
  unfold get_memories collGet
  simp [sortByRel]

/-- Witness for C8 at the concrete empty collection. -/
theorem C8_empty_collection_witness :
    search_memory (fun _ _ => 0) ⟨[]⟩ "q" 5 none none none none false = ([], false) ∧
    get_memories ⟨[]⟩ false none none 7 false = ([], true) :=
  C8_empty_collection ⟨[]⟩ (fun _ _ => 0) "q" 5 7 none none none none none
    false false false rfl

/-! ### delete_similar_memories (claims C5 and C10) -/

theorem foldl_delete_records (ids : List String) (st : Collection) :
    (ids.foldl (fun s i => (delete_memory s i).1) st).records =
      st.records.filter (fun r => decide (r.id ∉ ids)) := by
  induction ids generalizing st with
  | nil => simp
  | cons i is ih =>
    rw [List.foldl_cons, ih, delete_memory_records, List.filter_filter]
    apply List.filter_congr
    intro r hr
    by_cases h1 : r.id = i <;> by_cases h2 : r.id ∈ is <;>
      simp [h1, h2, List.mem_cons]

theorem head?_dropWhile_false (p : α → Bool) (l : List α) :
    ∀ x ∈ (l.dropWhile p).head?, p x = false := by
  intro x hx
  have hmain := List.head?_dropWhile_not p l
  cases hh : (l.dropWhile p).head? with
  | none => rw [hh] at hx; exact absurd hx (by simp)
  | some y =>
    rw [hh] at hx hmain
    have : y = x := by simpa using hx
    rw [← this]
    exact hmain

theorem length_minStage_le (mind : Option ℚ) (l : List SearchResult) :
    (match mind with
      | some v =>
        if 0 < v then l.filter (fun r : SearchResult => decide (v ≤ r.distance)) else l
      | none => l).length ≤ l.length := by
  rcases mind with _ | v
  · exact le_refl _
  · show (if 0 < v then l.filter (fun r : SearchResult => decide (v ≤ r.distance))
      else l).length ≤ l.length
    by_cases h : (0:ℚ) < v
    · rw [if_pos h]; exact List.length_filter_le _ _
    · rw [if_neg h]

theorem length_maxStage_le (maxd : Option ℚ) (l : List SearchResult) :
    (match maxd with
      | some v =>
        if v < 1 then l.filter (fun r : SearchResult => decide (r.distance ≤ v)) else l
      | none => l).length ≤ l.length := by
  rcases maxd with _ | v
  · exact le_refl _
  · show (if v < 1 then l.filter (fun r : SearchResult => decide (r.distance ≤ v))
      else l).length ≤ l.length
    by_cases h : v < (1:ℚ)
    · rw [if_pos h]; exact List.length_filter_le _ _
    · rw [if_neg h]

/-- The result list of search_memory never exceeds the requested
n_results. -/
theorem search_memory_length_le (d : String → String → ℚ) (st : Collection)
    (q : String) (n : Nat) (fm : Option (List (String × String)))
    (ct : Option String) (mind maxd : Option ℚ) (u : Bool) :
    (search_memory d st q n fm ct mind maxd u).1.length ≤ n := by
  unfold search_memory
  cases hc : (st.count == 0)
  · simp only [Bool.false_eq_true, if_false]
    refine le_trans (length_maxStage_le maxd _) (le_trans (length_minStage_le mind _) ?_)
    rw [List.length_map, collQuery, List.length_map, List.length_take]
    exact le_trans inf_le_left inf_le_left
  · simp

/-- C5: the ids delete_similar_memories deletes are exactly the maximal
prefix of the nearest-first result list whose members all beat the
threshold; every member of that prefix beats it; the first result after
the prefix fails it (so the walk stopped there and nothing later was
collected, the prefix plus the remainder being the whole result list);
the returned flag is true iff the prefix is nonempty; and the final
state is the original minus exactly the collected ids. -/
theorem C5_delete_similar_memories (d : String → String → ℚ) (st : Collection)
    (content : String) (threshold : ℚ) :
    (delete_similar_memories d st content threshold).deleted =
      (((search_memory d st content 5 none none none none false).1.takeWhile
        (fun m => decide (threshold < 1 - m.distance))).map (fun m => m.id)) ∧
    (∀ m ∈ (search_memory d st content 5 none none none none false).1.takeWhile
        (fun m => decide (threshold < 1 - m.distance)), threshold < 1 - m.distance) ∧
    (∀ m ∈ ((search_memory d st content 5 none none none none false).1.dropWhile
        (fun m => decide (threshold < 1 - m.distance))).head?,
      ¬ threshold < 1 - m.distance) ∧
    ((search_memory d st content 5 none none none none false).1.takeWhile
        (fun m => decide (threshold < 1 - m.distance))) ++
      ((search_memory d st content 5 none none none none false).1.dropWhile
        (fun m => decide (threshold < 1 - m.distance))) =
      (search_memory d st content 5 none none none none false).1 ∧
    ((delete_similar_memories d st content threshold).found = true ↔
      (delete_similar_memories d st content threshold).deleted ≠ []) ∧
    (delete_similar_memories d st content threshold).state.records =
      st.records.filter
        (fun r => decide (r.id ∉ (delete_similar_memories d st content threshold).deleted)) := by
  refine ⟨rfl, ?_, ?_, List.takeWhile_append_dropWhile _ _, ?_, ?_⟩
  · intro m hm
    have := List.mem_takeWhile_imp hm
    exact of_decide_eq_true this
  · intro m hm
    have := head?_dropWhile_false (fun m => decide (threshold < 1 - m.distance)) _ m hm
    simpa using this
  · show (decide (_ > 0) = true) ↔ _
    rw [decide_eq_true_iff, gt_iff_lt, List.length_pos]
    constructor
    · intro h
      simpa [delete_similar_memories] using h
    · intro h
      simpa [delete_similar_memories] using h
  · exact foldl_delete_records _ st

/-- Witness for C5 at a concrete one-record state: the deleted ids are
the threshold-passing prefix of the search results. -/
theorem C5_delete_similar_memories_witness :
    (delete_similar_memories (fun _ _ => 0) ⟨[⟨"a", "x", []⟩]⟩ "q" 0).deleted =
      (((search_memory (fun _ _ => 0) ⟨[⟨"a", "x", []⟩]⟩ "q" 5
          none none none none false).1.takeWhile
        (fun m => decide ((0:ℚ) < 1 - m.distance))).map (fun m => m.id)) :=
  (C5_delete_similar_memories (fun _ _ => 0) ⟨[⟨"a", "x", []⟩]⟩ "q" 0).1

theorem length_filter_not_add (p : α → Bool) (l : List α) :
    (l.filter p).length + (l.filter (fun a => !(p a))).length = l.length := by
  induction l with
  | nil => rfl
  | cons a as ih =>
    by_cases h : p a <;> simp [h, List.filter_cons] <;> omega

/-- C10: a single delete_similar_memories call collects at most 5 ids
(the search is issued with the source's default n_results of 5), and —
on a state whose ids are distinct, as produced by the backend — removes
at most 5 records, even when more than 5 stored memories beat the
threshold. -/
theorem C10_delete_similar_at_most_five (d : String → String → ℚ) (st : Collection)
    (content : String) (threshold : ℚ) :
    (delete_similar_memories d st content threshold).deleted.length ≤ 5 ∧
    ((st.records.map (fun r => r.id)).Nodup →
      st.records.length ≤
        (delete_similar_memories d st content threshold).state.records.length + 5) := by
  have hlen5 : (delete_similar_memories d st content threshold).deleted.length ≤ 5 := by
    show (((search_memory d st content 5 none none none none false).1.takeWhile
        (fun m => decide (threshold < 1 - m.distance))).map (fun m => m.id)).length ≤ 5
    rw [List.length_map]
    refine le_trans ?_ (search_memory_length_le d st content 5 none none none none false)
    conv_rhs => rw [← List.takeWhile_append_dropWhile
      (fun m => decide (threshold < 1 - m.distance))
      (search_memory d st content 5 none none none none false).1]
    rw [List.length_append]
    omega
  refine ⟨hlen5, ?_⟩
  intro hnodup
  set del := (delete_similar_memories d st content threshold).deleted with hdel
  have hrecords : (delete_similar_memories d st content threshold).state.records =
      st.records.filter (fun r => decide (r.id ∉ del)) :=
    foldl_delete_records _ st
  rw [hrecords]
  set q : Record → Bool := fun r => decide (r.id ∈ del) with hq
  have hsplit := length_filter_not_add q st.records
  have hfilter_eq : st.records.filter (fun r => decide (r.id ∉ del)) =
      st.records.filter (fun r => !(q r)) := by
    apply List.filter_congr
    intro r hr
    simp [hq]
  have hinlen : (st.records.filter q).length ≤ del.length := by
    have hsub : ((st.records.filter q).map (fun r => r.id)).Nodup := by
      exact List.Nodup.sublist (List.Sublist.map _ (List.filter_sublist _)) hnodup
    have hsubset : ((st.records.filter q).map (fun r => r.id)) ⊆ del := by
      intro x hx
      rw [List.mem_map] at hx
      obtain ⟨r, hr, hid⟩ := hx
      rw [List.mem_filter] at hr
      have := hr.2
      rw [hq] at this
      rw [← hid]
      exact of_decide_eq_true this
    have := (List.Nodup.subperm hsub hsubset).length_le
    rwa [List.length_map] at this
  rw [hfilter_eq]
  omega

/-- Witness for C10 at a concrete state of 7 records that all beat the
threshold: at most 5 are removed. -/
theorem C10_delete_similar_at_most_five_witness :
    (⟨[⟨"a", "x", []⟩, ⟨"b", "x", []⟩, ⟨"c", "x", []⟩, ⟨"d", "x", []⟩,
      ⟨"e", "x", []⟩, ⟨"f", "x", []⟩, ⟨"g", "x", []⟩]⟩ : Collection).records.length ≤
      (delete_similar_memories (fun _ _ => 0)
        ⟨[⟨"a", "x", []⟩, ⟨"b", "x", []⟩, ⟨"c", "x", []⟩, ⟨"d", "x", []⟩,
          ⟨"e", "x", []⟩, ⟨"f", "x", []⟩, ⟨"g", "x", []⟩]⟩ "q" 0).state.records.length + 5 :=
  (C10_delete_similar_at_most_five (fun _ _ => 0)
    ⟨[⟨"a", "x", []⟩, ⟨"b", "x", []⟩, ⟨"c", "x", []⟩, ⟨"d", "x", []⟩,
      ⟨"e", "x", []⟩, ⟨"f", "x", []⟩, ⟨"g", "x", []⟩]⟩ "q" 0).2 (by decide)

/-! ### Filter construction (claim C3) -/

/-- A where dict with two or more top-level entries never satisfies the
backend's one-operand grammar. -/
theorem wellFormedWhere_two_entries (a b : String × WClause) (rest : WhereDict) :
    wellFormedWhere (a :: b :: rest) = false := by
  obtain ⟨k, c⟩ := a
  cases c <;> rfl

/-- C3 counterexample: a two-key filter_metadata combined with
unique=True produces a where dict with two top-level operands
(`$and` plus the appended `unique` equality), which is not well-formed
in the backend's one-operand filter grammar, against the claim. -/
theorem C3_counterexample :
    buildWhere (some [("a", "1"), ("b", "2")]) true =
      some [("$and", WClause.andOp [[("a", WAtom.eqOp "1")], [("b", WAtom.eqOp "2")]]),
        ("unique", WClause.atom (WAtom.lit "True"))] ∧
    wellFormedWhere
      [("$and", WClause.andOp [[("a", WAtom.eqOp "1")], [("b", WAtom.eqOp "2")]]),
        ("unique", WClause.atom (WAtom.lit "True"))] = false := ⟨rfl, rfl⟩

/-- C3 amended: a multi-key filter_metadata becomes the `$and`
conjunction of per-key `$eq` clauses, contains_text becomes a
`$contains` clause, and unique=True adds the equality entry
`unique="True"` — but combined with a multi-key filter_metadata that
entry lands next to `$and` as a second top-level operand, leaving the
backend's one-operand grammar. -/
theorem C3_build_filter (fm : List (String × String)) (ct : String) :
    (fm.length > 1 → buildWhere (some fm) false =
      some [("$and", WClause.andOp (fm.map (fun p => [(p.1, WAtom.eqOp p.2)])))]) ∧
    (wdictGet ((buildWhere (some fm) true).getD []) "unique" =
      some (WClause.atom (WAtom.lit "True"))) ∧
    buildWhere none true = some [("unique", WClause.atom (WAtom.lit "True"))] ∧
    (some ct).map WDoc.containsOp = some (WDoc.containsOp ct) ∧
    (fm.length > 1 →
      wellFormedWhere ((buildWhere (some fm) true).getD []) = false) := by
  have htrue : buildWhere (some fm) true =
      some (wdictSet ((buildWhere (some fm) false).getD []) "unique"
        (WClause.atom (WAtom.lit "True"))) := rfl
  have hAnd : fm.length > 1 → buildWhere (some fm) false =
      some [("$and", WClause.andOp (fm.map (fun p => [(p.1, WAtom.eqOp p.2)])))] := by
    intro h
    show (if fm.length > 1
        then some [("$and", WClause.andOp (fm.map (fun p => [(p.1, WAtom.eqOp p.2)])))]
        else some (fm.map (fun p => (p.1, WClause.atom (WAtom.lit p.2))))) =
      some [("$and", WClause.andOp (fm.map (fun p => [(p.1, WAtom.eqOp p.2)])))]
    rw [if_pos h]
  refine ⟨hAnd, ?_, rfl, rfl, ?_⟩
  · rw [htrue, Option.getD_some]
    exact assocGet_set_self _ "unique" _
  · intro h
    rw [htrue, hAnd h, Option.getD_some, Option.getD_some]
    show wellFormedWhere (wdictSet [("$and", _)] "unique" _) = false
    unfold wdictSet assocSet
    rw [if_neg (by simp)]
    exact wellFormedWhere_two_entries _ _ _

/-- Witness for C3 at a concrete two-key filter. -/
theorem C3_build_filter_witness :
    buildWhere (some [("a", "1"), ("b", "2")]) false =
      some [("$and", WClause.andOp [[("a", WAtom.eqOp "1")], [("b", WAtom.eqOp "2")]])] ∧
    wellFormedWhere ((buildWhere (some [("a", "1"), ("b", "2")]) true).getD []) = false :=
  ⟨(C3_build_filter [("a", "1"), ("b", "2")] "t").1 (by decide),
   (C3_build_filter [("a", "1"), ("b", "2")] "t").2.2.2.2 (by decide)⟩

/-! ### Create/get round trip (claim C7) -/

theorem collGet_ids_single (st : Collection) (id : String) (n : Nat) :
    collGet st (some [id]) none none (some n) =
      (st.records.filter (fun r => r.id == id)).take n := by
  show (st.records.filter
    (fun r => [id].contains r.id && matchesWhere none r && matchesDoc none r)).take n = _
  congr 1
  apply List.filter_congr
  intro r hr
  by_cases h : r.id = id <;> simp [h, matchesWhere, matchesDoc, List.contains_cons]

theorem take_one_filter_upsert_map (l : List Record) (id text : String) (md : Meta)
    (h : l.any (fun r => r.id == id) = true) :
    ((l.map (fun r => if r.id == id then (⟨id, text, md⟩ : Record) else r)).filter
      (fun r => r.id == id)).take 1 = [⟨id, text, md⟩] := by
  induction l with
  | nil => simp at h
  | cons r rs ih =>
    by_cases hr : (r.id == id) = true
    · rw [List.map_cons, if_pos hr, List.filter_cons,
        if_pos (show (((⟨id, text, md⟩ : Record)).id == id) = true by simp)]
      rfl
    · rw [List.any_cons, Bool.or_eq_true] at h
      have hrs := h.resolve_left hr
      rw [List.map_cons, if_neg hr, List.filter_cons, if_neg hr]
      exact ih hrs

/-- Fetching by id right after an upsert of that id returns exactly the
upserted record, whether the upsert replaced or appended. -/
theorem get_memory_upsert (st : Collection) (id text : String) (md : Meta) :
    get_memory (upsert st id text md) id = some ⟨id, text, md⟩ := by
  have key : ((upsert st id text md).records.filter (fun r => r.id == id)).take 1 =
      [⟨id, text, md⟩] := by
    unfold upsert
    by_cases h : st.records.any (fun r => r.id == id)
    · rw [if_pos h]
      exact take_one_filter_upsert_map st.records id text md h
    · rw [if_neg h]
      show (((st.records ++ [(⟨id, text, md⟩ : Record)]).filter
        (fun r => r.id == id)).take 1) = _
      rw [List.filter_append]
      have hnil : st.records.filter (fun r => r.id == id) = [] := by
        rw [List.filter_eq_nil_iff]
        intro r hr hp
        exact h (List.any_of_mem hr hp)
      rw [hnil, List.nil_append, List.filter_cons,
        if_pos (show (((⟨id, text, md⟩ : Record)).id == id) = true by simp)]
      rfl
  unfold get_memory
  rw [collGet_ids_single, key]

/-- C7 counterexample: the two timestamp stamps in create_memory come
from two separate clock reads; when those reads differ (here ticks 0
and 1) the retrieved record has created_at different from updated_at,
against the claimed equality. -/
theorem C7_counterexample :
    (get_memory (create_memory ⟨[]⟩ "x" [("k", MVal.str "v")] none 0 1).1
        (create_memory ⟨[]⟩ "x" [("k", MVal.str "v")] none 0 1).2).map
      (fun r => decide (dictGet r.metadata "created_at" = dictGet r.metadata "updated_at"))
      = some false := by decide

/-- C7 amended: create then get round-trips the document and metadata,
with created_at and updated_at carrying the two clock reads taken at
creation; they are equal exactly when those two reads coincide. -/
theorem C7_roundtrip (st : Collection) (t1 t2 : Nat) :
    ∃ r, get_memory (create_memory st "x" [("k", MVal.str "v")] none t1 t2).1
        (create_memory st "x" [("k", MVal.str "v")] none t1 t2).2 = some r ∧
      r.document = "x" ∧
      dictGet r.metadata "k" = some (MVal.str "v") ∧
      dictGet r.metadata "created_at" = some (MVal.num t1) ∧
      dictGet r.metadata "updated_at" = some (MVal.num t2) ∧
      (t1 = t2 → dictGet r.metadata "created_at" = dictGet r.metadata "updated_at") := by
  refine ⟨⟨autoId st, "x",
    coerceBools (dictSet (dictSet [("k", MVal.str "v")] "created_at" (MVal.num t1))
      "updated_at" (MVal.num t2))⟩, ?_, rfl, rfl, rfl, rfl, ?_⟩
  · exact get_memory_upsert st (autoId st) "x" _
  · intro h
    cases h
    rfl

/-- Witness for C7 at a concrete state with coinciding clock reads. -/
theorem C7_roundtrip_witness :
    ∃ r, get_memory (create_memory ⟨[]⟩ "x" [("k", MVal.str "v")] none 5 5).1
        (create_memory ⟨[]⟩ "x" [("k", MVal.str "v")] none 5 5).2 = some r ∧
      r.document = "x" ∧
      dictGet r.metadata "k" = some (MVal.str "v") ∧
      dictGet r.metadata "created_at" = some (MVal.num 5) ∧
      dictGet r.metadata "updated_at" = some (MVal.num 5) ∧
      (5 = 5 → dictGet r.metadata "created_at" = dictGet r.metadata "updated_at") :=
  C7_roundtrip ⟨[]⟩ 5 5

/-! ### Decimal representation and id ordering (claim C6) -/

theorem decReprAux_congr (n : Nat) : ∀ (f1 f2 : Nat), n < f1 → n < f2 →
    decReprAux f1 n = decReprAux f2 n := by
  induction n using Nat.strong_induction_on with
  | _ n ih =>
    intro f1 f2 h1 h2
    match f1, f2 with
    | g1 + 1, g2 + 1 =>
      unfold decReprAux
      by_cases hn : n < 10
      · rw [if_pos hn, if_pos hn]
      · rw [if_neg hn, if_neg hn]
        have hdiv : n / 10 < n := Nat.div_lt_self (by omega) (by omega)
        rw [ih (n / 10) hdiv g1 (n + 1) (by omega) (by omega),
          ih (n / 10) hdiv g2 (n + 1) (by omega) (by omega)]

theorem decRepr_small (n : Nat) (h : n < 10) : decRepr n = [Nat.digitChar n] := by
  unfold decRepr decReprAux
  rw [if_pos h]

theorem decRepr_big (n : Nat) (h : 10 ≤ n) :
    decRepr n = decRepr (n / 10) ++ [Nat.digitChar (n % 10)] := by
  unfold decRepr
  conv_lhs => rw [decReprAux]
  rw [if_neg (by omega)]
  have hdiv : n / 10 < n := Nat.div_lt_self (by omega) (by omega)
  rw [decReprAux_congr (n / 10) n (n / 10 + 1) hdiv (by omega)]

theorem decRepr_length_le : ∀ (k n : Nat), 0 < k → n < 10 ^ k →
    (decRepr n).length ≤ k := by
  intro k
  induction k with
  | zero => omega
  | succ k ih =>
    intro n _ hn
    by_cases h10 : n < 10
    · rw [decRepr_small n h10]
      simp
    · have hk : 0 < k := by
        rcases Nat.eq_zero_or_pos k with hk0 | hk0
        · subst hk0; simp at hn; omega
        · exact hk0
      rw [decRepr_big n (by omega)]
      have hdiv : n / 10 < 10 ^ k := by
        rw [Nat.div_lt_iff_lt_mul (by omega)]
        calc n < 10 ^ (k + 1) := hn
        _ = 10 ^ k * 10 := by rw [pow_succ]
      have := ih (n / 10) hk hdiv
      simp only [List.length_append, List.length_cons, List.length_nil]
      omega

theorem padDigits_length : ∀ (k n : Nat), (padDigits k n).length = k := by
  intro k
  induction k with
  | zero => intro n; rfl
  | succ k ih =>
    intro n
    show (Nat.digitChar (n / 10 ^ k) :: padDigits k (n % 10 ^ k)).length = k + 1
    rw [List.length_cons, ih]

theorem padDigits_snoc : ∀ (k n : Nat), n < 10 ^ (k + 1) →
    padDigits (k + 1) n = padDigits k (n / 10) ++ [Nat.digitChar (n % 10)] := by
  intro k
  induction k with
  | zero =>
    intro n hn
    show [Nat.digitChar (n / 10 ^ 0)] = [Nat.digitChar (n % 10)]
    rw [pow_zero, Nat.div_one, Nat.mod_eq_of_lt (by simpa using hn)]
  | succ k ih =>
    intro n hn
    have e1 : n / 10 / 10 ^ k = n / 10 ^ (k + 1) := by
      rw [Nat.div_div_eq_div_mul, ← pow_succ']
    have e2 : n % 10 ^ (k + 1) / 10 = n / 10 % 10 ^ k := by
      have : (10 : Nat) ^ (k + 1) = 10 * 10 ^ k := by rw [pow_succ']
      rw [this, Nat.mod_mul_right_div_self]
    have e3 : n % 10 ^ (k + 1) % 10 = n % 10 :=
      Nat.mod_mod_of_dvd n (dvd_pow_self 10 (Nat.succ_ne_zero k))
    show Nat.digitChar (n / 10 ^ (k + 1)) :: padDigits (k + 1) (n % 10 ^ (k + 1)) =
      (Nat.digitChar (n / 10 / 10 ^ k) :: padDigits k (n / 10 % 10 ^ k)) ++
        [Nat.digitChar (n % 10)]
    rw [ih (n % 10 ^ (k + 1)) (lt_of_lt_of_le (Nat.mod_lt n (by positivity))
      (pow_le_pow_right₀ (by omega) (by omega))),
      e1, e2, e3, List.cons_append]

theorem decRepr_eq_padDigits_high : ∀ (k n : Nat), 10 ^ k ≤ n → n < 10 ^ (k + 1) →
    decRepr n = padDigits (k + 1) n := by
  intro k
  induction k with
  | zero =>
    intro n h1 hn
    rw [decRepr_small n (by simpa using hn)]
    show _ = [Nat.digitChar (n / 10 ^ 0)]
    rw [pow_zero, Nat.div_one]
  | succ k ih =>
    intro n h1 hn
    have h10 : (10 : Nat) ≤ n := by
      calc (10 : Nat) = 10 ^ 1 := (pow_one 10).symm
      _ ≤ 10 ^ (k + 1) := pow_le_pow_right₀ (by omega) (by omega)
      _ ≤ n := h1
    have hlow : 10 ^ k ≤ n / 10 := by
      rw [Nat.le_div_iff_mul_le (by omega)]
      calc 10 ^ k * 10 = 10 ^ (k + 1) := by rw [← pow_succ]
      _ ≤ n := h1
    have hhigh : n / 10 < 10 ^ (k + 1) := by
      rw [Nat.div_lt_iff_lt_mul (by omega)]
      calc n < 10 ^ (k + 2) := hn
      _ = 10 ^ (k + 1) * 10 := by rw [pow_succ]
    rw [decRepr_big n h10, ih (n / 10) hlow hhigh, ← padDigits_snoc (k + 1) n hn]

theorem zfill_eq_padDigits : ∀ (k n : Nat), 0 < k → n < 10 ^ k →
    zfill k (decRepr n) = padDigits k n := by
  intro k
  induction k with
  | zero => omega
  | succ k ih =>
    intro n _ hn
    by_cases hk : k = 0
    · subst hk
      rw [decRepr_small n (by simpa using hn)]
      show List.replicate (1 - 1) '0' ++ [Nat.digitChar n] = [Nat.digitChar (n / 10 ^ 0)]
      rw [pow_zero, Nat.div_one]
      rfl
    · have hkpos : 0 < k := by omega
      by_cases hn' : n < 10 ^ k
      · have hdiv : n / 10 ^ k = 0 := Nat.div_eq_of_lt hn'
        have hmod : n % 10 ^ k = n := Nat.mod_eq_of_lt hn'
        have hlen : (decRepr n).length ≤ k := decRepr_length_le k n hkpos hn'
        show List.replicate (k + 1 - (decRepr n).length) '0' ++ decRepr n =
          Nat.digitChar (n / 10 ^ k) :: padDigits k (n % 10 ^ k)
        rw [hdiv, hmod]
        have hrep : k + 1 - (decRepr n).length = (k - (decRepr n).length) + 1 := by omega
        rw [hrep, List.replicate_succ, List.cons_append]
        have := ih n hkpos hn'
        unfold zfill at this
        rw [this]
        rfl
      · have hhigh : 10 ^ k ≤ n := by omega
        rw [decRepr_eq_padDigits_high k n hhigh hn]
        show List.replicate (k + 1 - (padDigits (k + 1) n).length) '0' ++
          padDigits (k + 1) n = padDigits (k + 1) n
        rw [padDigits_length]
        simp

theorem digitChar_lt (a b : Nat) (hab : a < b) (hb : b < 10) :
    Nat.digitChar a < Nat.digitChar b := by
  have key : ∀ y, y < 10 → ∀ x, x < y → Nat.digitChar x < Nat.digitChar y := by decide
  exact key b hb a hab

theorem padDigits_lt : ∀ (k m n : Nat), m < n → n < 10 ^ k →
    List.Lex (· < ·) (padDigits k m) (padDigits k n) := by
  intro k
  induction k with
  | zero =>
    intro m n hmn hn
    simp at hn
    omega
  | succ k ih =>
    intro m n hmn hn
    have hb : n / 10 ^ k < 10 := by
      rw [Nat.div_lt_iff_lt_mul (by positivity)]
      calc n < 10 ^ (k + 1) := hn
      _ = 10 * 10 ^ k := by rw [pow_succ']
    have hab : m / 10 ^ k ≤ n / 10 ^ k := Nat.div_le_div_right (le_of_lt hmn)
    show List.Lex (· < ·) (Nat.digitChar (m / 10 ^ k) :: padDigits k (m % 10 ^ k))
      (Nat.digitChar (n / 10 ^ k) :: padDigits k (n % 10 ^ k))
    rcases lt_or_eq_of_le hab with hlt | heq
    · exact List.Lex.rel (digitChar_lt _ _ hlt hb)
    · rw [heq]
      have hmodlt : m % 10 ^ k < n % 10 ^ k := by
        have h1 := Nat.div_add_mod m (10 ^ k)
        have h2 := Nat.div_add_mod n (10 ^ k)
        rw [heq] at h1
        omega
      have hmodbound : n % 10 ^ k < 10 ^ k := Nat.mod_lt n (by positivity)
      exact List.Lex.cons (ih (m % 10 ^ k) (n % 10 ^ k) hmodlt hmodbound)

/-- Strict monotonicity of the 16-character zero-padded decimal id
encoding, in the string order. -/
theorem padded_id_lt (m n : Nat) (hmn : m < n) (hn : n < 10 ^ 16) :
    String.mk (zfill 16 (decRepr m)) < String.mk (zfill 16 (decRepr n)) := by
  rw [String.lt_iff_toList_lt]
  show zfill 16 (decRepr m) < zfill 16 (decRepr n)
  rw [zfill_eq_padDigits 16 m (by omega) (lt_trans hmn hn),
    zfill_eq_padDigits 16 n (by omega) hn]
  show List.Lex (· < ·) (padDigits 16 m) (padDigits 16 n)
  exact padDigits_lt 16 m n hmn hn

/-- C6 counterexample: after three auto-id creates and a delete, the
next auto-assigned id — derived from the pre-insert count, which dropped
back — repeats the id the third create assigned, so auto-assigned ids
are not strictly increasing when deletes occur between the creates. -/
theorem C6_counterexample :
    (let s1 := (create_memory ⟨[]⟩ "a" [] none 0 0).1
     let s2 := (create_memory s1 "b" [] none 0 0).1
     let s3 := (create_memory s2 "c" [] none 0 0).1
     let s4 := (delete_memory s3 "0000000000000000").1
     (create_memory s2 "c" [] none 0 0).2 = "0000000000000002" ∧
     (create_memory s4 "d" [] none 0 0).2 = "0000000000000002") := by decide

/-- C6 amended: a create with id omitted assigns the 16-character
zero-padded decimal representation of the pre-insert count, and over
creates with no intervening deletion the assigned ids are strictly
increasing (the counts grow by one and the padded encoding is strictly
monotone below 10^16); an intervening delete can make a later
auto-assigned id repeat an earlier one. -/
theorem C6_auto_ids (st : Collection) (text1 text2 : String) (md1 md2 : Meta)
    (t1 t2 t3 t4 : Nat)
    (hfresh : ¬ ∃ r ∈ st.records, r.id = autoId st)
    (hsize : st.count + 1 < 10 ^ 16) :
    (create_memory st text1 md1 none t1 t2).2 = autoId st ∧
    autoId st = String.mk (zfill 16 (decRepr st.count)) ∧
    (autoId st).length = 16 ∧
    (create_memory (create_memory st text1 md1 none t1 t2).1 text2 md2 none t3 t4).2 =
      String.mk (zfill 16 (decRepr (st.count + 1))) ∧
    (create_memory st text1 md1 none t1 t2).2 <
      (create_memory (create_memory st text1 md1 none t1 t2).1 text2 md2 none t3 t4).2 := by
  have hany : st.records.any (fun r => r.id == autoId st) = false := by
    rw [← Bool.not_eq_true, List.any_eq_true]
    rintro ⟨r, hr, hid⟩
    exact hfresh ⟨r, hr, by simpa using hid⟩
  have hst1 : (create_memory st text1 md1 none t1 t2).1.count = st.count + 1 := by
    show (upsert st (autoId st) text1 _).count = st.count + 1
    unfold upsert
    rw [if_neg (by simp [hany])]
    show (st.records ++ [_]).length = _
    rw [List.length_append]
    rfl
  have hid2 : (create_memory (create_memory st text1 md1 none t1 t2).1
      text2 md2 none t3 t4).2 = String.mk (zfill 16 (decRepr (st.count + 1))) := by
    show autoId (create_memory st text1 md1 none t1 t2).1 = _
    unfold autoId
    rw [hst1]
  refine ⟨rfl, rfl, ?_, hid2, ?_⟩
  · show (zfill 16 (decRepr st.count)).length = 16
    show (List.replicate (16 - (decRepr st.count).length) '0' ++
      decRepr st.count).length = 16
    rw [List.length_append, List.length_replicate]
    have := decRepr_length_le 16 st.count (by omega) (by omega)
    omega
  · rw [hid2]
    show String.mk (zfill 16 (decRepr st.count)) < _
    exact padded_id_lt st.count (st.count + 1) (by omega) hsize

/-- Witness for C6 at the concrete empty collection: the first two
auto-assigned ids, in order. -/
theorem C6_auto_ids_witness :
    (create_memory ⟨[]⟩ "a" [] none 0 0).2 = autoId ⟨[]⟩ ∧
    autoId ⟨[]⟩ = String.mk (zfill 16 (decRepr (Collection.count ⟨[]⟩))) ∧
    (autoId ⟨[]⟩).length = 16 ∧
    (create_memory (create_memory ⟨[]⟩ "a" [] none 0 0).1 "b" [] none 0 0).2 =
      String.mk (zfill 16 (decRepr (Collection.count ⟨[]⟩ + 1))) ∧
    (create_memory ⟨[]⟩ "a" [] none 0 0).2 <
      (create_memory (create_memory ⟨[]⟩ "a" [] none 0 0).1 "b" [] none 0 0).2 :=
  C6_auto_ids ⟨[]⟩ "a" "b" [] [] 0 0 0 0 (by decide) (by decide)

/-! ### Sorting lemmas for the backend query model -/

theorem insertSorted_perm (le : α → α → Bool) (x : α) (l : List α) :
    (insertSorted le x l).Perm (x :: l) := by
  induction l with
  | nil => exact List.Perm.refl _
  | cons y ys ih =>
    unfold insertSorted
    by_cases h : le x y = true
    · rw [if_pos h]
    · rw [if_neg h]
      exact List.Perm.trans (List.Perm.cons y ih) (List.Perm.swap x y ys)

theorem sortByRel_perm (le : α → α → Bool) (l : List α) :
    (sortByRel le l).Perm l := by
  induction l with
  | nil => exact List.Perm.refl _
  | cons x xs ih =>
    exact List.Perm.trans (insertSorted_perm le x (sortByRel le xs))
      (List.Perm.cons x ih)

theorem insertSorted_pairwise (le : α → α → Bool)
    (htrans : ∀ a b c, le a b = true → le b c = true → le a c = true)
    (htotal : ∀ a b, le a b = true ∨ le b a = true)
    (x : α) (l : List α) (hl : l.Pairwise (fun a b => le a b = true)) :
    (insertSorted le x l).Pairwise (fun a b => le a b = true) := by
  induction l with
  | nil => simp [insertSorted]
  | cons y ys ih =>
    rw [List.pairwise_cons] at hl
    unfold insertSorted
    by_cases h : le x y = true
    · rw [if_pos h]
      rw [List.pairwise_cons]
      refine ⟨?_, List.pairwise_cons.mpr hl⟩
      intro z hz
      rcases List.mem_cons.mp hz with hz | hz
      · subst hz; exact h
      · exact htrans x y z h (hl.1 z hz)
    · rw [if_neg h]
      have hyx : le y x = true := (htotal x y).resolve_left h
      rw [List.pairwise_cons]
      refine ⟨?_, ih hl.2⟩
      intro z hz
      have hz2 := (insertSorted_perm le x ys).mem_iff.mp hz
      rcases List.mem_cons.mp hz2 with hz2 | hz2
      · subst hz2; exact hyx
      · exact hl.1 z hz2

theorem sortByRel_pairwise (le : α → α → Bool)
    (htrans : ∀ a b c, le a b = true → le b c = true → le a c = true)
    (htotal : ∀ a b, le a b = true ∨ le b a = true)
    (l : List α) :
    (sortByRel le l).Pairwise (fun a b => le a b = true) := by
  induction l with
  | nil => exact List.Pairwise.nil
  | cons x xs ih => exact insertSorted_pairwise le htrans htotal x _ ih

/-! ### The search issued by create_unique_memory (claim C2) -/

/-- Evaluation of search_memory's two distance post-filter stages at the
arguments passed by create_unique_memory (min_distance = 0, so the lower
filter is skipped; max_distance = 1 - similarity < 1, so the upper
filter applies). -/
theorem stage_eval (sim : ℚ) (hsim : 0 < sim) (B : List SearchResult) :
    (if (1:ℚ) - sim < 1
      then (if (0:ℚ) < 0
        then B.filter (fun r : SearchResult => decide ((0:ℚ) ≤ r.distance)) else B).filter
          (fun r : SearchResult => decide (r.distance ≤ 1 - sim))
      else (if (0:ℚ) < 0
        then B.filter (fun r : SearchResult => decide ((0:ℚ) ≤ r.distance)) else B)) =
    B.filter (fun r : SearchResult => decide (r.distance ≤ 1 - sim)) := by
  rw [if_neg (lt_irrefl (0:ℚ)), if_pos (show (1:ℚ) - sim < 1 by linarith)]

/-- The n_results=1 search issued by create_unique_memory comes back
empty exactly when no stored record flagged unique="True" lies within
the distance window, and when it is nonempty its head is (the result
row of) such a stored record. -/
theorem search_unique_cases (d : String → String → ℚ) (st : Collection)
    (content : String) (sim : ℚ) (hsim : 0 < sim) :
    ((search_memory d st content 1 (some [("unique", "True")]) none
        (some 0) (some (1 - sim)) false).1 = [] ↔
      ¬ ∃ r ∈ st.records,
        dictGet r.metadata "unique" = some (MVal.str "True") ∧
        d content r.document ≤ 1 - sim) ∧
    (∀ m ∈ (search_memory d st content 1 (some [("unique", "True")]) none
        (some 0) (some (1 - sim)) false).1.head?,
      ∃ r ∈ st.records,
        dictGet r.metadata "unique" = some (MVal.str "True") ∧
        d content r.document ≤ 1 - sim ∧
        m.id = r.id ∧ m.document = r.document) := by
  obtain ⟨recs⟩ := st
  cases recs with
  | nil =>
    constructor
    · refine iff_of_true rfl ?_
      rintro ⟨r, hr, -⟩
      exact absurd hr (List.not_mem_nil r)
    · intro m hm
      have hres : (search_memory d ⟨[]⟩ content 1 (some [("unique", "True")]) none
          (some 0) (some (1 - sim)) false).1 = [] := rfl
      rw [hres] at hm
      simp at hm
  | cons r0 rs =>
    have hsearch : (search_memory d ⟨r0 :: rs⟩ content 1 (some [("unique", "True")]) none
        (some 0) (some (1 - sim)) false).1 =
        (((sortByRel
            (fun a b : Record => decide (d content a.document ≤ d content b.document))
            ((r0 :: rs).filter (fun r =>
              matchesWhere (some [("unique", WClause.atom (WAtom.lit "True"))]) r &&
              matchesDoc none r))).take 1).map
          (fun r : Record =>
            SearchResult.mk r.id r.document r.metadata (d content r.document))).filter
          (fun r : SearchResult => decide (r.distance ≤ 1 - sim)) := by
      have hminred : min 1 (Collection.count ⟨r0 :: rs⟩) = 1 := by
        apply min_eq_left
        show 1 ≤ (r0 :: rs).length
        simp
      have h1 := stage_eval sim hsim
        (List.map
          (fun p : Record × ℚ => SearchResult.mk p.1.id p.1.document p.1.metadata p.2)
          (List.map (fun r : Record => (r, d content r.document))
            (List.take (min 1 (Collection.count ⟨r0 :: rs⟩))
              (sortByRel
                (fun a b : Record =>
                  decide (d content a.document ≤ d content b.document))
                (List.filter
                  (fun r =>
                    matchesWhere
                      (some [("unique", WClause.atom (WAtom.lit "True"))]) r &&
                    matchesDoc none r)
                  (r0 :: rs))))))
      have h2 : (search_memory d ⟨r0 :: rs⟩ content 1 (some [("unique", "True")]) none
          (some 0) (some (1 - sim)) false).1 =
          List.filter (fun r : SearchResult => decide (r.distance ≤ 1 - sim))
            (List.map
              (fun p : Record × ℚ =>
                SearchResult.mk p.1.id p.1.document p.1.metadata p.2)
              (List.map (fun r : Record => (r, d content r.document))
                (List.take (min 1 (Collection.count ⟨r0 :: rs⟩))
                  (sortByRel
                    (fun a b : Record =>
                      decide (d content a.document ≤ d content b.document))
                    (List.filter
                      (fun r =>
                        matchesWhere
                          (some [("unique", WClause.atom (WAtom.lit "True"))]) r &&
                        matchesDoc none r)
                      (r0 :: rs)))))) := h1
      rw [h2, hminred, List.map_map]
      rfl
    have hPmem : ∀ r : Record, (r ∈ (r0 :: rs).filter (fun r =>
          matchesWhere (some [("unique", WClause.atom (WAtom.lit "True"))]) r &&
          matchesDoc none r)) ↔
        (r ∈ r0 :: rs ∧ dictGet r.metadata "unique" = some (MVal.str "True")) := by
      intro r
      rw [List.mem_filter]
      constructor
      · rintro ⟨h1, h2⟩
        refine ⟨h1, ?_⟩
        simpa [matchesWhere, matchesEntry, matchesDoc, atomVal] using h2
      · rintro ⟨h1, h2⟩
        refine ⟨h1, ?_⟩
        simp [matchesWhere, matchesEntry, matchesDoc, atomVal, h2]
    cases hsort : sortByRel
        (fun a b : Record => decide (d content a.document ≤ d content b.document))
        ((r0 :: rs).filter (fun r =>
          matchesWhere (some [("unique", WClause.atom (WAtom.lit "True"))]) r &&
          matchesDoc none r)) with
    | nil =>
      have hcand : (r0 :: rs).filter (fun r =>
          matchesWhere (some [("unique", WClause.atom (WAtom.lit "True"))]) r &&
          matchesDoc none r) = [] := by
        have hperm := sortByRel_perm
          (fun a b : Record => decide (d content a.document ≤ d content b.document))
          ((r0 :: rs).filter (fun r =>
            matchesWhere (some [("unique", WClause.atom (WAtom.lit "True"))]) r &&
            matchesDoc none r))
        rw [hsort] at hperm
        exact (hperm.symm).eq_nil
      have hnomatch : ¬ ∃ r ∈ r0 :: rs,
          dictGet r.metadata "unique" = some (MVal.str "True") ∧
          d content r.document ≤ 1 - sim := by
        rintro ⟨r, hr, hP, -⟩
        have : r ∈ (r0 :: rs).filter (fun r =>
            matchesWhere (some [("unique", WClause.atom (WAtom.lit "True"))]) r &&
            matchesDoc none r) := (hPmem r).mpr ⟨hr, hP⟩
        rw [hcand] at this
        exact absurd this (List.not_mem_nil r)
      rw [hsearch, hsort]
      exact ⟨iff_of_true rfl hnomatch, by intro m hm; simp at hm⟩
    | cons m0 rest =>
      have hperm := sortByRel_perm
        (fun a b : Record => decide (d content a.document ≤ d content b.document))
        ((r0 :: rs).filter (fun r =>
          matchesWhere (some [("unique", WClause.atom (WAtom.lit "True"))]) r &&
          matchesDoc none r))
      rw [hsort] at hperm
      have hm0cand := (hPmem m0).mp (hperm.mem_iff.mp (List.mem_cons_self m0 rest))
      have hmin : ∀ x, x ∈ r0 :: rs →
          dictGet x.metadata "unique" = some (MVal.str "True") →
          d content m0.document ≤ d content x.document := by
        intro x hx hPx
        have hxcand := (hPmem x).mpr ⟨hx, hPx⟩
        have hx2 := hperm.mem_iff.mpr hxcand
        rcases List.mem_cons.mp hx2 with h | h
        · rw [h]
        · have hpair := sortByRel_pairwise
            (fun a b : Record => decide (d content a.document ≤ d content b.document))
            (by
              intro a b c h1 h2
              rw [decide_eq_true_iff] at h1 h2 ⊢
              exact le_trans h1 h2)
            (by
              intro a b
              rcases le_total (d content a.document) (d content b.document) with h | h
              · exact Or.inl (decide_eq_true h)
              · exact Or.inr (decide_eq_true h))
            ((r0 :: rs).filter (fun r =>
              matchesWhere (some [("unique", WClause.atom (WAtom.lit "True"))]) r &&
              matchesDoc none r))
          rw [hsort] at hpair
          have := List.rel_of_pairwise_cons hpair h
          exact of_decide_eq_true this
      rw [hsearch, hsort]
      by_cases hd : d content m0.document ≤ 1 - sim
      · have hres2 : ((((m0 :: rest).take 1).map
            (fun r : Record =>
              SearchResult.mk r.id r.document r.metadata (d content r.document))).filter
            (fun r : SearchResult => decide (r.distance ≤ 1 - sim))) =
            [SearchResult.mk m0.id m0.document m0.metadata (d content m0.document)] := by
          show (([SearchResult.mk m0.id m0.document m0.metadata
            (d content m0.document)]).filter
            (fun r : SearchResult => decide (r.distance ≤ 1 - sim))) = _
          rw [List.filter_cons, if_pos (decide_eq_true hd)]
          rfl
        rw [hres2]
        constructor
        · refine iff_of_false (by simp) ?_
          intro hno
          exact hno ⟨m0, hm0cand.1, hm0cand.2, hd⟩
        · intro m hm
          have hmeq : SearchResult.mk m0.id m0.document m0.metadata
              (d content m0.document) = m := by simpa using hm
          subst hmeq
          exact ⟨m0, hm0cand.1, hm0cand.2, hd, rfl, rfl⟩
      · have hres2 : ((((m0 :: rest).take 1).map
            (fun r : Record =>
              SearchResult.mk r.id r.document r.metadata (d content r.document))).filter
            (fun r : SearchResult => decide (r.distance ≤ 1 - sim))) = [] := by
          show (([SearchResult.mk m0.id m0.document m0.metadata
            (d content m0.document)]).filter
            (fun r : SearchResult => decide (r.distance ≤ 1 - sim))) = _
          rw [List.filter_cons, if_neg (by simpa using hd)]
          rfl
        rw [hres2]
        constructor
        · refine iff_of_true rfl ?_
          rintro ⟨r, hr, hP, hdist⟩
          exact hd (le_trans (hmin r hr hP) hdist)
        · intro m hm
          simp at hm

theorem any_id_eq_false (st : Collection) (i : String)
    (h : ¬ ∃ r ∈ st.records, r.id = i) :
    st.records.any (fun r => r.id == i) = false := by
  rw [← Bool.not_eq_true, List.any_eq_true]
  rintro ⟨r, hr, hid⟩
  exact h ⟨r, hr, by simpa using hid⟩

/-- When the auto-assigned id is fresh, create_memory with id omitted
appends exactly one new record and returns that id. -/
theorem create_memory_append (st : Collection) (text : String) (md : Meta) (t1 t2 : Nat)
    (hfresh : ¬ ∃ r ∈ st.records, r.id = autoId st) :
    (create_memory st text md none t1 t2).1.records =
      st.records ++ [⟨autoId st, text,
        coerceBools (dictSet (dictSet md "created_at" (MVal.num t1))
          "updated_at" (MVal.num t2))⟩] ∧
    (create_memory st text md none t1 t2).2 = autoId st := by
  refine ⟨?_, rfl⟩
  show (upsert st (autoId st) text _).records = _
  unfold upsert
  rw [if_neg (by simp [any_id_eq_false st (autoId st) hfresh])]

/-- A string-valued metadata key untouched by the timestamp stamps and
the boolean coercion survives create_memory's metadata processing. -/
theorem dictGet_create_str (md : Meta) (k : String) (s : String) (t1 t2 : Nat)
    (hk1 : k ≠ "created_at") (hk2 : k ≠ "updated_at")
    (h : dictGet md k = some (MVal.str s)) :
    dictGet (coerceBools (dictSet (dictSet md "created_at" (MVal.num t1))
      "updated_at" (MVal.num t2))) k = some (MVal.str s) := by
  rw [dictGet_coerceBools, dictGet_dictSet_ne _ _ _ _ hk2,
    dictGet_dictSet_ne _ _ _ _ hk1, h]
  rfl

/-- create_unique_memory, with its let-bindings unfolded: one search,
then a create whose metadata depends on whether the search hit. -/
theorem create_unique_eq_match (d : String → String → ℚ) (st : Collection)
    (content : String) (metadata : Meta) (sim : ℚ) (t1 t2 : Nat) :
    create_unique_memory d st content metadata sim t1 t2 =
      match (search_memory d st content 1 (some [("unique", "True")]) none
          (some 0) (some (1 - sim)) false).1 with
      | [] => create_memory st content
          (dictSet metadata "unique" (MVal.str "True")) none t1 t2
      | m :: _ => create_memory st content
          (dictSet (dictSet (dictSet metadata "unique" (MVal.str "False"))
            "related_to" (MVal.str m.id)) "related_document" (MVal.str m.document))
          none t1 t2 := rfl

/-- C2: create_unique_memory never rejects the insert: it always appends
exactly one new record carrying the content, leaving every stored record
— in particular a matched memory and its unique="True" flag — untouched.
When no stored record flagged unique="True" lies within distance
[0, 1 - similarity] of the content, the new record is flagged
unique="True"; when one does, the new record is still inserted but
flagged unique="False", with related_to / related_document naming such a
matched stored record. -/
theorem C2_create_unique (d : String → String → ℚ) (st : Collection)
    (content : String) (metadata : Meta) (sim : ℚ) (t1 t2 : Nat)
    (hsim : 0 < sim) (hnn : ∀ s, 0 ≤ d content s)
    (hfresh : ¬ ∃ r ∈ st.records, r.id = autoId st) :
    ∃ nr : Record,
      (create_unique_memory d st content metadata sim t1 t2).1.records =
        st.records ++ [nr] ∧
      (create_unique_memory d st content metadata sim t1 t2).2 = nr.id ∧
      nr.document = content ∧
      ((¬ ∃ r ∈ st.records,
          dictGet r.metadata "unique" = some (MVal.str "True") ∧
          0 ≤ d content r.document ∧ d content r.document ≤ 1 - sim) →
        dictGet nr.metadata "unique" = some (MVal.str "True")) ∧
      ((∃ r ∈ st.records,
          dictGet r.metadata "unique" = some (MVal.str "True") ∧
          0 ≤ d content r.document ∧ d content r.document ≤ 1 - sim) →
        dictGet nr.metadata "unique" = some (MVal.str "False") ∧
        ∃ r0 ∈ st.records,
          dictGet r0.metadata "unique" = some (MVal.str "True") ∧
          0 ≤ d content r0.document ∧ d content r0.document ≤ 1 - sim ∧
          dictGet nr.metadata "related_to" = some (MVal.str r0.id) ∧
          dictGet nr.metadata "related_document" = some (MVal.str r0.document)) := by
  have hiff := (search_unique_cases d st content sim hsim).1
  have hhead := (search_unique_cases d st content sim hsim).2
  have hequiv : (∃ r ∈ st.records,
      dictGet r.metadata "unique" = some (MVal.str "True") ∧
      0 ≤ d content r.document ∧ d content r.document ≤ 1 - sim) ↔
      (∃ r ∈ st.records,
      dictGet r.metadata "unique" = some (MVal.str "True") ∧
      d content r.document ≤ 1 - sim) := by
    constructor
    · rintro ⟨r, hr, hP, -, hd⟩; exact ⟨r, hr, hP, hd⟩
    · rintro ⟨r, hr, hP, hd⟩; exact ⟨r, hr, hP, hnn r.document, hd⟩
  cases hcase : (search_memory d st content 1 (some [("unique", "True")]) none
      (some 0) (some (1 - sim)) false).1 with
  | nil =>
    have hcu : create_unique_memory d st content metadata sim t1 t2 =
        create_memory st content (dictSet metadata "unique" (MVal.str "True"))
          none t1 t2 := by
      rw [create_unique_eq_match, hcase]
    obtain ⟨hrec, hid⟩ := create_memory_append st content
      (dictSet metadata "unique" (MVal.str "True")) t1 t2 hfresh
    refine ⟨⟨autoId st, content,
      coerceBools (dictSet (dictSet (dictSet metadata "unique" (MVal.str "True"))
        "created_at" (MVal.num t1)) "updated_at" (MVal.num t2))⟩,
      ?_, ?_, rfl, ?_, ?_⟩
    · rw [hcu]; exact hrec
    · rw [hcu]; exact hid
    · rintro -
      exact dictGet_create_str _ "unique" "True" t1 t2 (by decide) (by decide)
        (dictGet_dictSet_self metadata "unique" (MVal.str "True"))
    · intro hex
      exact absurd (hequiv.mp hex) (hiff.mp hcase)
  | cons m rest =>
    have hcu : create_unique_memory d st content metadata sim t1 t2 =
        create_memory st content
          (dictSet (dictSet (dictSet metadata "unique" (MVal.str "False"))
            "related_to" (MVal.str m.id)) "related_document" (MVal.str m.document))
          none t1 t2 := by
      rw [create_unique_eq_match, hcase]
    have hm : m ∈ (search_memory d st content 1 (some [("unique", "True")]) none
        (some 0) (some (1 - sim)) false).1.head? := by
      rw [hcase]; simp
    obtain ⟨r0, hr0mem, hr0P, hr0le, hmid, hmdoc⟩ := hhead m hm
    obtain ⟨hrec, hid⟩ := create_memory_append st content
      (dictSet (dictSet (dictSet metadata "unique" (MVal.str "False"))
        "related_to" (MVal.str m.id)) "related_document" (MVal.str m.document))
      t1 t2 hfresh
    refine ⟨⟨autoId st, content,
      coerceBools (dictSet (dictSet
        (dictSet (dictSet (dictSet metadata "unique" (MVal.str "False"))
          "related_to" (MVal.str m.id)) "related_document" (MVal.str m.document))
        "created_at" (MVal.num t1)) "updated_at" (MVal.num t2))⟩,
      ?_, ?_, rfl, ?_, ?_⟩
    · rw [hcu]; exact hrec
    · rw [hcu]; exact hid
    · intro hno
      exact absurd (hequiv.mpr ⟨r0, hr0mem, hr0P, hr0le⟩) hno
    · rintro -
      constructor
      · refine dictGet_create_str _ "unique" "False" t1 t2 (by decide) (by decide) ?_
        rw [dictGet_dictSet_ne _ _ _ _ (by decide), dictGet_dictSet_ne _ _ _ _ (by decide)]
        exact dictGet_dictSet_self _ "unique" (MVal.str "False")
      · refine ⟨r0, hr0mem, hr0P, hnn r0.document, hr0le, ?_, ?_⟩
        · rw [← hmid]
          refine dictGet_create_str _ "related_to" m.id t1 t2 (by decide) (by decide) ?_
          rw [dictGet_dictSet_ne _ _ _ _ (by decide)]
          exact dictGet_dictSet_self _ "related_to" (MVal.str m.id)
        · rw [← hmdoc]
          exact dictGet_create_str _ "related_document" m.document t1 t2
            (by decide) (by decide)
            (dictGet_dictSet_self _ "related_document" (MVal.str m.document))

/-- Witness for C2 at a concrete one-record state: the matched stored
memory exists and the new record is inserted related to it. -/
theorem C2_create_unique_witness :
    ∃ nr : Record,
      (create_unique_memory (fun _ _ => 0)
          ⟨[⟨"0000000000000000", "hello", [("unique", MVal.str "True")]⟩]⟩
          "hello" [] 1 7 7).1.records =
        (⟨[⟨"0000000000000000", "hello", [("unique", MVal.str "True")]⟩]⟩ :
          Collection).records ++ [nr] ∧
      (create_unique_memory (fun _ _ => 0)
          ⟨[⟨"0000000000000000", "hello", [("unique", MVal.str "True")]⟩]⟩
          "hello" [] 1 7 7).2 = nr.id ∧
      nr.document = "hello" ∧
      ((¬ ∃ r ∈ (⟨[⟨"0000000000000000", "hello", [("unique", MVal.str "True")]⟩]⟩ :
          Collection).records,
          dictGet r.metadata "unique" = some (MVal.str "True") ∧
          (0:ℚ) ≤ 0 ∧ (0:ℚ) ≤ 1 - 1) →
        dictGet nr.metadata "unique" = some (MVal.str "True")) ∧
      ((∃ r ∈ (⟨[⟨"0000000000000000", "hello", [("unique", MVal.str "True")]⟩]⟩ :
          Collection).records,
          dictGet r.metadata "unique" = some (MVal.str "True") ∧
          (0:ℚ) ≤ 0 ∧ (0:ℚ) ≤ 1 - 1) →
        dictGet nr.metadata "unique" = some (MVal.str "False") ∧
        ∃ r0 ∈ (⟨[⟨"0000000000000000", "hello", [("unique", MVal.str "True")]⟩]⟩ :
          Collection).records,
          dictGet r0.metadata "unique" = some (MVal.str "True") ∧
          (0:ℚ) ≤ 0 ∧ (0:ℚ) ≤ 1 - 1 ∧
          dictGet nr.metadata "related_to" = some (MVal.str r0.id) ∧
          dictGet nr.metadata "related_document" = some (MVal.str r0.document)) :=
  C2_create_unique (fun _ _ => 0)
    ⟨[⟨"0000000000000000", "hello", [("unique", MVal.str "True")]⟩]⟩
    "hello" [] 1 7 7 one_pos (fun _ => le_refl 0) (by decide)

end AgentMemory
